import Mathlib

/-!
Shallow embedding of the structured-patch interpreter `tools/apply_patch.py`.

Text is modelled as `List Char`; a line of text is a `Line := List Char`
(lines produced by splitting never contain the separator character).
Fallible operations return `Except PatchError`.
-/

namespace ApplyPatch

/-- A single line of text, as a list of characters. -/
abbrev Line := List Char

deriving instance DecidableEq for Except

/-- Python `str.strip()` whitespace predicate (the ASCII whitespace class
`' ' \t \n \r \x0b \x0c` of `string.whitespace`). -/
def pyIsSpace (c : Char) : Bool :=
  c = ' ' || c = '\t' || c = '\n' || c = '\r' || c = '\x0b' || c = '\x0c'

/-- Python `str.strip()`: remove whitespace from both ends. -/
def pyStrip (l : Line) : Line :=
  ((l.dropWhile pyIsSpace).reverse.dropWhile pyIsSpace).reverse

/-- Python `str.startswith(p)` on lines. -/
def startswith (p l : Line) : Bool :=
  l.take p.length = p

/-- `*** Begin Patch` marker (constant `BEGIN` in the source). -/
def BEGIN : Line := "*** Begin Patch".data

/-- `*** End Patch` marker (constant `END` in the source). -/
def END : Line := "*** End Patch".data

/-- `*** Add File:` directive marker (constant `ADD`). -/
def ADD : Line := "*** Add File:".data

/-- `*** Update File:` directive marker (constant `UPDATE`). -/
def UPDATE : Line := "*** Update File:".data

/-- `*** Delete File:` directive marker (constant `DELETE`). -/
def DELETE : Line := "*** Delete File:".data

/-- `*** Move to:` directive marker (constant `MOVE`). -/
def MOVE : Line := "*** Move to:".data

/-- The distinct failure modes raised as `PatchError` in the source, one
constructor per distinct `raise PatchError(...)` site of the embedded core. -/
inductive PatchError where
  | beginMissing
  | endMissing
  | unsupportedDirective (line : Line)
  | missingAddPath
  | missingDeletePath
  | missingUpdatePath
  | addedLineTag
  | missingHunkData (path : Line)
  | malformedHunkLine
  | unsupportedHunkTag (c : Char)
  | hunkLongerThanTarget
  | contextMatchFailed
deriving DecidableEq, Repr

/-- A hunk: raw header line plus raw tagged body lines (class `Hunk`). -/
structure Hunk where
  header : Line
  lines : List Line
deriving DecidableEq, Repr

/-- One parsed patch operation (class `Operation`, as a sum type). -/
inductive Operation where
  | add (path : Line) (content : List Line)
  | delete (path : Line)
  | update (path : Line) (newPath : Option Line) (hunks : List Hunk)
deriving DecidableEq, Repr

/-! ### Hunk header recognition (`HUNK_HEADER_RE` and `Hunk.__post_init__`) -/

/-- Numeric value of a list of decimal digit characters, most significant first. -/
def natOfDigits (ds : List Char) : Nat :=
  ds.foldl (fun n c => n * 10 + (c.toNat - '0'.toNat)) 0

/-- Consume the optional `,<digits>` group of the hunk-header pattern:
if the input starts with a comma followed by at least one digit, drop the
comma and the maximal digit run, otherwise leave the input unchanged. -/
def skipCommaDigits (cs : List Char) : List Char :=
  match cs with
  | ',' :: rest =>
    if (rest.takeWhile Char.isDigit).isEmpty then cs
    else rest.dropWhile Char.isDigit
  | _ => cs

/-- Anchored match of `HUNK_HEADER_RE` (`@@ -<orig>[,<n>] +<new>[,<m>] @@`,
with arbitrary trailing text) against an already-stripped header, returning
the 1-based original start `orig` on success. -/
def matchHunkHeader (cs : List Char) : Option Nat :=
  match cs with
  | '@' :: '@' :: ' ' :: '-' :: rest =>
    let ds := rest.takeWhile Char.isDigit
    if ds.isEmpty then none
    else
      match skipCommaDigits (rest.dropWhile Char.isDigit) with
      | ' ' :: '+' :: rest2 =>
        let ds2 := rest2.takeWhile Char.isDigit
        if ds2.isEmpty then none
        else
          match skipCommaDigits (rest2.dropWhile Char.isDigit) with
          | ' ' :: '@' :: '@' :: _ => some (natOfDigits ds)
          | _ => none
      | _ => none
  | _ => none

/-- `Hunk.original_start`: the original-file start parsed from the stripped
header, or `none` when the header does not match the pattern. -/
def Hunk.originalStart (h : Hunk) : Option Nat :=
  matchHunkHeader (pyStrip h.header)

/-! ### `decode_hunk_lines` -/

/-- `decode_hunk_lines`: split a hunk's raw tagged lines into the
`(original, replacement)` pair.  A line starting with `"\ "` is ignored;
otherwise the first character must be `' '`, `'-'` or `'+'`; an empty line
or any other first character is an error. -/
def decode_hunk_lines : List Line → Except PatchError (List Line × List Line)
  | [] => .ok ([], [])
  | row :: rest =>
    if row.isEmpty then .error .malformedHunkLine
    else if startswith ['\\', ' '] row then decode_hunk_lines rest
    else if row.headI = ' ' then
      match decode_hunk_lines rest with
      | .ok p => .ok (row.tail :: p.1, row.tail :: p.2)
      | .error e => .error e
    else if row.headI = '-' then
      match decode_hunk_lines rest with
      | .ok p => .ok (row.tail :: p.1, p.2)
      | .error e => .error e
    else if row.headI = '+' then
      match decode_hunk_lines rest with
      | .ok p => .ok (p.1, row.tail :: p.2)
      | .error e => .error e
    else .error (.unsupportedHunkTag row.headI)

/-! ### `find_sequence` -/

/-- `find_sequence(lines, seq, start_hint)`: locate the first occurrence of
`seq` inside `lines`, scanning from the (clamped) hint forward to the last
feasible position and then wrapping around to the positions before the hint.
An empty `seq` returns the hint clamped into `[0, len lines]` (or
`len lines` with no hint). -/
def find_sequence (lines : List Line) (seq : List Line) (start_hint : Option Int) :
    Except PatchError Nat :=
  if seq.isEmpty then
    match start_hint with
    | some h => .ok (max 0 (min h (lines.length : Int))).toNat
    | none => .ok lines.length
  else if lines.length < seq.length then
    .error .hunkLongerThanTarget
  else
    let maxStart := lines.length - seq.length
    let positions : List Nat :=
      match start_hint with
      | some h =>
        let start := (max 0 (min h (maxStart : Int))).toNat
        List.range' start (maxStart + 1 - start) ++ List.range start
      | none => List.range (maxStart + 1)
    match positions.find? (fun pos => decide ((lines.drop pos).take seq.length = seq)) with
    | some pos => .ok pos
    | none => .error .contextMatchFailed

/-! ### `apply_update`: the hunk-application loop and the final rejoin -/

/-- The hunk loop of `apply_update`: apply each hunk in order to the current
line list while threading the running `line_delta`. -/
def applyHunks : List Line → Int → List Hunk → Except PatchError (List Line)
  | lines, _, [] => .ok lines
  | lines, delta, h :: rest =>
    match decode_hunk_lines h.lines with
    | .error e => .error e
    | .ok (original, replacement) =>
      match find_sequence lines original
          (h.originalStart.map (fun s : Nat => max ((s : Int) - 1 + delta) 0)) with
      | .error e => .error e
      | .ok idx =>
        applyHunks (lines.take idx ++ replacement ++ lines.drop (idx + original.length))
          (if h.originalStart.isSome then
            delta + (replacement.length : Int) - (original.length : Int)
          else delta) rest

/-- Python `str.splitlines` line-break characters (besides the `\r\n` pair). -/
def isLineBreak (c : Char) : Bool :=
  c = '\n' || c = '\r' || c = '\x0b' || c = '\x0c' ||
  c = '\x1c' || c = '\x1d' || c = '\x1e' || c = '\x85' || c = '\u2028' || c = '\u2029'

/-- Worker for `splitlines`: `acc` holds the current line, reversed; a
`'\r'` immediately followed by `'\n'` counts as a single break. -/
def splitlinesAux : List Char → List Char → List Line
  | [], acc => [acc.reverse]
  | c :: rest, acc =>
    if c = '\r' then
      match rest with
      | '\n' :: rest2 =>
        acc.reverse :: (if rest2.isEmpty then [] else splitlinesAux rest2 [])
      | other =>
        acc.reverse :: (if other.isEmpty then [] else splitlinesAux other [])
    else if isLineBreak c then
      acc.reverse :: (if rest.isEmpty then [] else splitlinesAux rest [])
    else splitlinesAux rest (c :: acc)

/-- Python `str.splitlines()` (without `keepends`). -/
def splitlines (cs : List Char) : List Line :=
  if cs.isEmpty then [] else splitlinesAux cs []

/-- Join lines with `'\n'` (Python `"\n".join(lines)`). -/
def joinNl (lines : List Line) : List Char :=
  List.intercalate ['\n'] lines

/-- The pure core of `apply_update`: given the target file's current text,
apply the hunks and produce the text written back.  Mirrors the source:
record whether the text ends in `'\n'`, split into lines, run the hunk loop
with `line_delta = 0`, rejoin with `'\n'`, and append a trailing newline
when the original ended with one or the resulting line list is empty. -/
def apply_update_text (text : List Char) (hunks : List Hunk) :
    Except PatchError (List Char) :=
  match applyHunks (splitlines text) 0 hunks with
  | .error e => .error e
  | .ok newLines =>
    let body := joinNl newLines
    .ok (if decide (text.getLast? = some '\n') || newLines.isEmpty then
      body ++ ['\n'] else body)

/-! ### `normalize_lines` and `parse_patch` -/

/-- The two sequential replacements `text.replace("\r\n", "\n").replace("\r", "\n")`. -/
def normalizeNewlines : List Char → List Char
  | [] => []
  | '\r' :: '\n' :: rest => '\n' :: normalizeNewlines rest
  | '\r' :: rest => '\n' :: normalizeNewlines rest
  | c :: rest => c :: normalizeNewlines rest

/-- Drop the single trailing empty element left by `split("\n")` on text
ending in a newline (`if lines and lines[-1] == "": lines.pop()`). -/
def popTrailingEmpty (ls : List Line) : List Line :=
  if ls.getLast? = some ([] : Line) then ls.dropLast else ls

/-- Strip a leading byte-order mark from the first line
(`lines[0] = lines[0].lstrip(BOM)` guarded by `startswith`). -/
def stripBom : List Line → List Line
  | [] => []
  | first :: rest =>
    if startswith ['\uFEFF'] first then first.dropWhile (fun c => c = '\uFEFF') :: rest
    else first :: rest

/-- `normalize_lines`: normalize line endings, split on `'\n'`, drop the
trailing empty element, strip a leading BOM. -/
def normalize_lines (text : List Char) : List Line :=
  stripBom (popTrailingEmpty ((normalizeNewlines text).splitOn '\n'))

/-- The `"*** "` directive-stop marker tested by `row.startswith("*** ")`. -/
def STARS : Line := "*** ".data

/-- The `"*** End of File"` sentinel line. -/
def EOF_MARK : Line := "*** End of File".data

/-- The `"@@"` placeholder header and hunk-header start marker. -/
def ATAT : Line := "@@".data

/-- The payload loop of the Add-File branch of `parse_patch`: consume rows
until one starts with `"*** "`; every consumed row must start with `'+'` and
contributes its remainder; returns the payload and the unconsumed rows. -/
def parseAddPayload : List Line → Except PatchError (List Line × List Line)
  | [] => .ok ([], [])
  | row :: rest =>
    if startswith STARS row then .ok ([], row :: rest)
    else if startswith ['+'] row then
      match parseAddPayload rest with
      | .ok p => .ok (row.drop 1 :: p.1, p.2)
      | .error e => .error e
    else .error .addedLineTag

/-- The loop state of the Update-File body walk, plus the unconsumed rows. -/
structure UpdateBodyState where
  hunks : List Hunk
  headerQ : Option Line
  cur : List Line
  started : Bool
  leftover : List Line
deriving DecidableEq, Repr

/-- The body loop of the Update-File branch of `parse_patch`: consume rows
until one starts with `"*** "`.  A row equal to `"*** End of File"` would be
skipped (this test is unreachable: such a row starts with `"*** "`); a row
starting with `"@@"` closes the current hunk and opens a new one; any other
row is appended to the current hunk's raw lines, synthesizing the
placeholder `"@@"` header when none is open.  Every consumed row sets the
`started` flag. -/
def parseUpdateBody : List Line → Option Line → List Line → Bool → List Hunk →
    UpdateBodyState
  | [], headerQ, cur, started, hunks => ⟨hunks, headerQ, cur, started, []⟩
  | row :: rest, headerQ, cur, started, hunks =>
    if startswith STARS row then ⟨hunks, headerQ, cur, started, row :: rest⟩
    else if row = EOF_MARK then parseUpdateBody rest headerQ cur true hunks
    else if startswith ATAT row then
      match headerQ with
      | some hdr => parseUpdateBody rest (some row) [] true (hunks ++ [⟨hdr, cur⟩])
      | none => parseUpdateBody rest (some row) [] true hunks
    else
      match headerQ with
      | some hdr => parseUpdateBody rest (some hdr) (cur ++ [row]) true hunks
      | none => parseUpdateBody rest (some ATAT) (cur ++ [row]) true hunks

/-- Post-processing after the Update body loop: close the open hunk, and when
no hunk was produced either synthesize one empty placeholder hunk (if any row
was consumed) or fail naming the path. -/
def finishHunks (st : UpdateBodyState) (path : Line) : Except PatchError (List Hunk) :=
  let hunks :=
    match st.headerQ with
    | some hdr => st.hunks ++ [⟨hdr, st.cur⟩]
    | none => st.hunks
  if hunks.isEmpty then
    if st.started then .ok [⟨ATAT, []⟩]
    else .error (.missingHunkData path)
  else .ok hunks

/-- Consume an optional `*** Move to:` line immediately after an Update-File
directive, returning the rename target (if any) and the remaining rows. -/
def moveSplit : List Line → Option Line × List Line
  | [] => (none, [])
  | mv :: rest =>
    if startswith MOVE mv then (some (pyStrip (mv.drop MOVE.length)), rest)
    else (none, mv :: rest)

/-- The top-level directive loop of `parse_patch` (rows after the Begin
marker): skip blank rows; return the accumulated operations (in reverse
accumulation order) at an End marker; dispatch on the Add/Delete/Update
directives; fail on any other non-blank row; fail with a missing-end error
when the rows run out. -/
def parseOps (lines : List Line) (ops : List Operation) :
    Except PatchError (List Operation) :=
  match lines with
  | [] => .error .endMissing
  | line :: rest =>
    if (pyStrip line).isEmpty then parseOps rest ops
    else if pyStrip line = END then .ok ops.reverse
    else if startswith ADD line then
      match hpa : parseAddPayload rest with
      | .error e => .error e
      | .ok p =>
        let path := pyStrip (line.drop ADD.length)
        if path.isEmpty then .error .missingAddPath
        else parseOps p.2 (.add path p.1 :: ops)
    else if startswith DELETE line then
      let path := pyStrip (line.drop DELETE.length)
      if path.isEmpty then .error .missingDeletePath
      else parseOps rest (.delete path :: ops)
    else if startswith UPDATE line then
      let path := pyStrip (line.drop UPDATE.length)
      if path.isEmpty then .error .missingUpdatePath
      else
        let ms := moveSplit rest
        let st := parseUpdateBody ms.2 none [] false []
        match finishHunks st path with
        | .error e => .error e
        | .ok hunks => parseOps st.leftover (.update path ms.1 hunks :: ops)
    else .error (.unsupportedDirective line)
termination_by lines.length
decreasing_by
  · simp
  · have hlp : ∀ (l : List Line) (q : List Line × List Line),
        parseAddPayload l = .ok q → q.2.length ≤ l.length := by
      intro l
      induction l with
      | nil =>
        intro q hq
        simp only [parseAddPayload, Except.ok.injEq] at hq
        subst hq
        simp
      | cons row rest' ih =>
        intro q hq
        simp only [parseAddPayload] at hq
        split at hq
        · cases hq; simp
        · split at hq
          · cases hh : parseAddPayload rest' with
            | ok r =>
              rw [hh] at hq
              cases hq
              have := ih r hh
              simpa using Nat.le_succ_of_le this
            | error e => rw [hh] at hq; cases hq
          · cases hq
    have := hlp rest p hpa
    simp
    omega
  · simp
  · have hub : ∀ (l : List Line) (hq : Option Line) (cur : List Line) (b : Bool)
        (hs : List Hunk), (parseUpdateBody l hq cur b hs).leftover.length ≤ l.length := by
      intro l
      induction l with
      | nil => intro hq cur b hs; simp [parseUpdateBody]
      | cons row rest' ih =>
        intro hq cur b hs
        simp only [parseUpdateBody]
        split
        · simp
        · split
          · exact Nat.le_succ_of_le (ih ..)
          · split
            · split
              · exact Nat.le_succ_of_le (ih ..)
              · exact Nat.le_succ_of_le (ih ..)
            · split
              · exact Nat.le_succ_of_le (ih ..)
              · exact Nat.le_succ_of_le (ih ..)
    have hms : (moveSplit rest).2.length ≤ rest.length := by
      cases rest with
      | nil => simp [moveSplit]
      | cons mv r => simp only [moveSplit]; split <;> simp
    have h1 := hub (moveSplit rest).2 none [] false []
    simp
    omega

/-- `parse_patch` after `normalize_lines`: skip leading blank rows, require
the Begin marker, then run the directive loop. -/
def parseBeginLines (lines : List Line) : Except PatchError (List Operation) :=
  match lines.dropWhile (fun l => (pyStrip l).isEmpty) with
  | [] => .error .beginMissing
  | first :: rest =>
    if pyStrip first = BEGIN then parseOps rest [] else .error .beginMissing

/-- `parse_patch`: normalize the text into lines and parse the document. -/
def parse_patch (text : List Char) : Except PatchError (List Operation) :=
  parseBeginLines (normalize_lines text)

/-- Modelled from the spec (§4.3), for comparison with the code: the candidate
scan order — with a hint, clamp it into `[0, max_start]` and scan
`hint, hint+1, …, max_start` followed by `0, 1, …, hint−1`; without a hint,
scan `0..max_start` in order. -/
def specScanOrder (maxStart : Nat) (hint : Option Int) : List Nat :=
  match hint with
  | some h =>
    let c := (max 0 (min h (maxStart : Int))).toNat
    List.range' c (maxStart + 1 - c) ++ List.range c
  | none => List.range (maxStart + 1)

/-- A raw hunk line on which `decode_hunk_lines` must fail: not an ignored
`"\ "` line, and either empty or starting with a character other than
`' '`, `'-'`, `'+'`. -/
def malformedHunkRow (row : Line) : Bool :=
  !startswith ['\\', ' '] row &&
    (row.isEmpty || !(row.headI = ' ' || row.headI = '-' || row.headI = '+'))

/-! ### Helper lemmas about the parser loops -/

/-- The leftover of the Add payload loop never exceeds its input. -/
theorem parseAddPayload_length {l : List Line} {p : List Line × List Line}
    (h : parseAddPayload l = .ok p) : p.2.length ≤ l.length := by
  induction l generalizing p with
  | nil =>
    simp only [parseAddPayload, Except.ok.injEq] at h
    subst h; simp
  | cons row rest ih =>
    simp only [parseAddPayload] at h
    split at h
    · cases h; simp
    · split at h
      · cases hh : parseAddPayload rest with
        | ok q =>
          rw [hh] at h
          cases h
          have := ih hh
          simpa using Nat.le_succ_of_le this
        | error e => rw [hh] at h; cases h
      · cases h

/-- The leftover of the Update body loop never exceeds its input. -/
theorem parseUpdateBody_leftover_length (l : List Line) (hq : Option Line)
    (cur : List Line) (b : Bool) (hs : List Hunk) :
    (parseUpdateBody l hq cur b hs).leftover.length ≤ l.length := by
  induction l generalizing hq cur b hs with
  | nil => simp [parseUpdateBody]
  | cons row rest ih =>
    simp only [parseUpdateBody]
    split
    · simp
    · split
      · exact Nat.le_succ_of_le (ih ..)
      · split
        · split
          · exact Nat.le_succ_of_le (ih ..)
          · exact Nat.le_succ_of_le (ih ..)
        · split
          · exact Nat.le_succ_of_le (ih ..)
          · exact Nat.le_succ_of_le (ih ..)

/-- `moveSplit` never returns more rows than it was given. -/
theorem moveSplit_length (l : List Line) : (moveSplit l).2.length ≤ l.length := by
  cases l with
  | nil => simp [moveSplit]
  | cons mv rest => simp only [moveSplit]; split <;> simp

/-! ### Helper lemmas about `find_sequence` -/

/-- Anything returned by the scan of `find_sequence` with a non-empty needle
lies between 0 and `maxStart`. -/
theorem pos_le_of_mem_scan {c n pos : Nat}
    (h : pos ∈ List.range' c (n + 1 - c) ++ List.range c) (hc : c ≤ n) :
    pos ≤ n := by
  rcases List.mem_append.1 h with h | h
  · rw [List.mem_range'_1] at h; omega
  · rw [List.mem_range] at h; omega

/-- Postcondition of `find_sequence`: a returned index is feasible and (for a
non-empty needle, and vacuously for an empty one) the slice there equals the
needle. -/
theorem find_sequence_ok {hay seq : List Line} {hint : Option Int} {i : Nat}
    (h : find_sequence hay seq hint = .ok i) :
    i + seq.length ≤ hay.length ∧ (hay.drop i).take seq.length = seq := by
  unfold find_sequence at h
  by_cases hseq : seq.isEmpty
  · have hs : seq = [] := List.isEmpty_iff.mp hseq
    subst hs
    rw [if_pos hseq] at h
    cases hint with
    | none =>
      cases h
      simp
    | some hv =>
      simp only [Except.ok.injEq] at h
      subst h
      refine ⟨?_, by simp⟩
      simp only [List.length_nil, Nat.add_zero]
      omega
  · rw [if_neg hseq] at h
    split at h
    · cases h
    · rename_i hlen
      split at h <;> (simp only [] at h; split at h) <;> cases h <;>
        (rename_i heq
         have hmem := List.mem_of_find?_eq_some heq
         have hmatch := List.find?_some heq
         rw [decide_eq_true_eq] at hmatch
         refine ⟨?_, hmatch⟩
         have hile : i ≤ hay.length - seq.length := by
           first
           | (refine pos_le_of_mem_scan hmem ?_; omega)
           | (rw [List.mem_range] at hmem; omega)
         omega)

/-! ### C2: scanning behaviour of `find_sequence` on a non-empty needle -/

/-- The spec's scan order visits each candidate position at most once. -/
theorem specScanOrder_nodup (maxStart : Nat) (hint : Option Int) :
    (specScanOrder maxStart hint).Nodup := by
  cases hint with
  | none => exact List.nodup_range _
  | some h =>
    refine List.Nodup.append (List.nodup_range' _ _) (List.nodup_range _) ?_
    intro a ha hb
    rw [List.mem_range'_1] at ha
    rw [List.mem_range] at hb
    omega

/-- C2: for every haystack, non-empty needle and optional hint,
`find_sequence` fails with the hunk-longer-than-target error exactly when
`len haystack − len needle` is negative; otherwise it returns the first
candidate position — scanned in the order clamped-hint, …, max_start,
0, …, clamped-hint−1 (plain 0..max_start without a hint), an order free of
duplicates — whose slice equals the needle line-for-line, failing with the
context-match error when no position matches. -/
theorem find_sequence_scans_in_spec_order (hay seq : List Line) (hint : Option Int)
    (hne : seq ≠ []) :
    (find_sequence hay seq hint = .error .hunkLongerThanTarget ↔
      hay.length < seq.length) ∧
    (specScanOrder (hay.length - seq.length) hint).Nodup ∧
    (¬ hay.length < seq.length →
      find_sequence hay seq hint =
        match (specScanOrder (hay.length - seq.length) hint).find?
            (fun pos => decide ((hay.drop pos).take seq.length = seq)) with
        | some pos => .ok pos
        | none => .error .contextMatchFailed) := by
  have hseq : seq.isEmpty = false := by simp [hne]
  have h3 : ¬ hay.length < seq.length →
      find_sequence hay seq hint =
        match (specScanOrder (hay.length - seq.length) hint).find?
            (fun pos => decide ((hay.drop pos).take seq.length = seq)) with
        | some pos => .ok pos
        | none => .error .contextMatchFailed := by
    intro hlen
    unfold find_sequence
    rw [hseq]
    simp only [Bool.false_eq_true, if_false, if_neg hlen]
    rcases hint with _ | hv <;> rfl
  refine ⟨⟨?_, ?_⟩, specScanOrder_nodup _ _, h3⟩
  · intro h
    by_contra hlen
    rw [h3 hlen] at h
    split at h <;> simp_all
  · intro hlen
    unfold find_sequence
    rw [hseq]
    simp [hlen]

/-- Witness for C2 at a concrete input: a two-line needle in a four-line
haystack with hint 1 (the match at 0 is found only after the wrap-around). -/
theorem find_sequence_scans_in_spec_order_witness :
    (("x".data : Line) :: ["y".data, "a".data, "b".data]) ≠ [] ∧
    find_sequence ["x".data, "y".data, "a".data, "b".data] ["x".data, "y".data]
        (some 1) =
      match (specScanOrder 2 (some 1)).find?
          (fun pos => decide (((["x".data, "y".data, "a".data, "b".data] :
            List Line).drop pos).take 2 = [("x".data : Line), "y".data])) with
      | some pos => .ok pos
      | none => .error .contextMatchFailed := by
  constructor
  · decide
  · exact (find_sequence_scans_in_spec_order
      ["x".data, "y".data, "a".data, "b".data] ["x".data, "y".data]
      (some 1) (by decide)).2.2 (by decide)

/-! ### C4: empty needle -/

/-- C4: `find_sequence` never fails on an empty needle — with a hint it
returns the hint clamped into `[0, len haystack]`, without one it returns
`len haystack`; consequently a hunk with an empty original block, a non-empty
replacement and no parsed header (hence no hint) appends the replacement at
end-of-file. -/
theorem find_sequence_empty_needle :
    (∀ (hay : List Line) (h : Int),
      find_sequence hay [] (some h) = .ok (max 0 (min h (hay.length : Int))).toNat) ∧
    (∀ hay : List Line, find_sequence hay [] none = .ok hay.length) ∧
    (∀ (lines : List Line) (delta : Int) (hk : Hunk) (repl : List Line),
      hk.originalStart = none →
      decode_hunk_lines hk.lines = .ok ([], repl) →
      repl ≠ [] →
      applyHunks lines delta [hk] = .ok (lines ++ repl)) := by
  refine ⟨fun hay h => rfl, fun hay => rfl, ?_⟩
  intro lines delta hk repl hstart hdec _
  simp only [applyHunks, hdec, hstart, Option.map_none']
  have hfind : find_sequence lines [] none = .ok lines.length := rfl
  rw [hfind]
  simp [applyHunks]

/-- Witness for C4 at a concrete input: a header-less hunk adding two lines
to a two-line file appends them at end-of-file. -/
theorem find_sequence_empty_needle_witness :
    (Hunk.mk ATAT ["+c".data, "+d".data]).originalStart = none ∧
    decode_hunk_lines ["+c".data, "+d".data] = .ok ([], ["c".data, "d".data]) ∧
    (["c".data, "d".data] : List Line) ≠ [] ∧
    applyHunks ["a".data, "b".data] 0 [Hunk.mk ATAT ["+c".data, "+d".data]] =
      .ok ["a".data, "b".data, "c".data, "d".data] := by
  refine ⟨by decide, by decide, by decide, ?_⟩
  exact find_sequence_empty_needle.2.2 ["a".data, "b".data] 0
    (Hunk.mk ATAT ["+c".data, "+d".data]) ["c".data, "d".data]
    (by decide) (by decide) (by decide)

/-! ### C9: every returned match index is a real occurrence -/

/-- C9: whenever `find_sequence` returns normally, the returned index `i`
satisfies `i + len needle ≤ len haystack` (so with a non-empty needle
`i ≤ len haystack − len needle`, and with an empty needle `i ≤ len haystack`)
and the slice of the haystack at `i` equals the needle; hence every splice
performed during an Update replaces an actual occurrence of the decoded
original block. -/
theorem find_sequence_returns_occurrence (hay seq : List Line) (hint : Option Int)
    (i : Nat) (h : find_sequence hay seq hint = .ok i) :
    i + seq.length ≤ hay.length ∧ (hay.drop i).take seq.length = seq :=
  find_sequence_ok h

/-- Witness for C9 at a concrete input. -/
theorem find_sequence_returns_occurrence_witness :
    find_sequence ["a".data, "b".data, "c".data] ["b".data, "c".data] none = .ok 1 ∧
    (1 + 2 ≤ 3 ∧
      (((["a".data, "b".data, "c".data] : List Line)).drop 1).take 2 =
        [("b".data : Line), "c".data]) := by
  refine ⟨by decide, ?_⟩
  exact find_sequence_returns_occurrence ["a".data, "b".data, "c".data]
    ["b".data, "c".data] none 1 (by decide)

/-! ### C6: totality and error characterization of `decode_hunk_lines` -/

/-- C6: decoding is total except on malformed input — `"\ "` lines are
ignored, a leading `' '` sends the remainder to both blocks, `'-'` to the
original only, `'+'` to the replacement only, and decoding fails if and only
if some non-ignored row is empty or begins with any other character. -/
theorem decode_hunk_lines_characterization :
    (∀ rows : List Line,
      (∃ e, decode_hunk_lines rows = .error e) ↔ ∃ row ∈ rows, malformedHunkRow row) ∧
    decode_hunk_lines [] = .ok ([], []) ∧
    (∀ (row : Line) (rest : List Line), startswith ['\\', ' '] row →
      decode_hunk_lines (row :: rest) = decode_hunk_lines rest) ∧
    (∀ (content : Line) (rest : List Line),
      decode_hunk_lines ((' ' :: content) :: rest) =
        match decode_hunk_lines rest with
        | .ok p => .ok (content :: p.1, content :: p.2)
        | .error e => .error e) ∧
    (∀ (content : Line) (rest : List Line),
      decode_hunk_lines (('-' :: content) :: rest) =
        match decode_hunk_lines rest with
        | .ok p => .ok (content :: p.1, p.2)
        | .error e => .error e) ∧
    (∀ (content : Line) (rest : List Line),
      decode_hunk_lines (('+' :: content) :: rest) =
        match decode_hunk_lines rest with
        | .ok p => .ok (p.1, content :: p.2)
        | .error e => .error e) := by
  refine ⟨?_, rfl, ?_, ?_, ?_, ?_⟩
  · intro rows
    induction rows with
    | nil => simp [decode_hunk_lines]
    | cons row rest ih =>
      by_cases h0 : row.isEmpty
      · have : row = [] := List.isEmpty_iff.mp h0
        subst this
        simp [decode_hunk_lines, malformedHunkRow, startswith]
      · by_cases h1 : startswith ['\\', ' '] row
        · rw [show decode_hunk_lines (row :: rest) = decode_hunk_lines rest by
            simp [decode_hunk_lines, h0, h1]]
          rw [ih]
          constructor
          · intro ⟨r, hr, hm⟩; exact ⟨r, List.mem_cons_of_mem _ hr, hm⟩
          · intro ⟨r, hr, hm⟩
            rcases List.mem_cons.mp hr with rfl | hr
            · simp [malformedHunkRow, h1] at hm
            · exact ⟨r, hr, hm⟩
        · by_cases h2 : row.headI = ' ' ∨ row.headI = '-' ∨ row.headI = '+'
          · have hstep : ∀ e, decode_hunk_lines (row :: rest) = .error e ↔
                decode_hunk_lines rest = .error e := by
              intro e
              rcases h2 with h2 | h2 | h2 <;>
                simp only [decode_hunk_lines, h0, h1, h2, Bool.false_eq_true, if_false,
                  if_true, reduceIte] <;>
                (cases hres : decode_hunk_lines rest <;> simp [hres])
            have hmal : malformedHunkRow row = false := by
              simp only [malformedHunkRow, h0]
              rcases h2 with h2 | h2 | h2 <;> simp [h2, h1]
            constructor
            · intro ⟨e, he⟩
              rcases ih.mp ⟨e, (hstep e).mp he⟩ with ⟨r, hr, hm⟩
              exact ⟨r, List.mem_cons_of_mem _ hr, hm⟩
            · intro ⟨r, hr, hm⟩
              rcases List.mem_cons.mp hr with rfl | hr
              · rw [hmal] at hm; cases hm
              · rcases ih.mpr ⟨r, hr, hm⟩ with ⟨e, he⟩
                exact ⟨e, (hstep e).mpr he⟩
          · push_neg at h2
            obtain ⟨hs, hd, hp⟩ := h2
            have : decode_hunk_lines (row :: rest) = .error (.unsupportedHunkTag row.headI) := by
              simp [decode_hunk_lines, h0, h1, hs, hd, hp]
            constructor
            · intro _
              exact ⟨row, List.mem_cons_self _ _, by simp [malformedHunkRow, h0, h1, hs, hd, hp]⟩
            · intro _
              exact ⟨_, this⟩
  · intro row rest h1
    have h0 : row.isEmpty = false := by
      cases row with
      | nil => simp [startswith] at h1
      | cons c t => simp
    simp [decode_hunk_lines, h0, h1]
  · intro content rest
    simp [decode_hunk_lines, startswith]
  · intro content rest
    simp [decode_hunk_lines, startswith]
  · intro content rest
    simp [decode_hunk_lines, startswith]

/-- Witness for C6 at concrete inputs: a mixed hunk body decodes as
described, and a body containing an empty row fails. -/
theorem decode_hunk_lines_characterization_witness :
    startswith ['\\', ' '] "\\ No newline at end of file".data = true ∧
    decode_hunk_lines ["\\ No newline at end of file".data] = decode_hunk_lines [] ∧
    ((∃ e, decode_hunk_lines [" x".data, ([] : Line)] = .error e) ↔
      ∃ row ∈ [(" x".data : Line), []], malformedHunkRow row) := by
  refine ⟨by decide, ?_, ?_⟩
  · exact decode_hunk_lines_characterization.2.2.1 "\\ No newline at end of file".data []
      (by decide)
  · exact decode_hunk_lines_characterization.1 [" x".data, []]

/-! ### Step equations of the hunk loop (shared helpers) -/

/-- The empty hunk list leaves the line list unchanged. -/
theorem applyHunks_nil (lines : List Line) (delta : Int) :
    applyHunks lines delta [] = .ok lines := rfl

/-- Step equation for a hunk with a parsed original-start `s`: the search
hint is `max (s − 1 + delta) 0` and on success the delta grows by
`len replacement − len original`. -/
theorem applyHunks_cons_some (lines : List Line) (delta : Int) (hk : Hunk)
    (rest : List Hunk) (s : Nat) (o r : List Line)
    (hs : hk.originalStart = some s)
    (hdec : decode_hunk_lines hk.lines = .ok (o, r)) :
    applyHunks lines delta (hk :: rest) =
      match find_sequence lines o (some (max ((s : Int) - 1 + delta) 0)) with
      | .error e => .error e
      | .ok idx =>
        applyHunks (lines.take idx ++ r ++ lines.drop (idx + o.length))
          (delta + (r.length : Int) - (o.length : Int)) rest := by
  simp only [applyHunks, hdec, hs, Option.map_some', Option.isSome_some, if_true]

/-- Step equation for a hunk without a parseable header: the search runs
with no hint and the delta is unchanged. -/
theorem applyHunks_cons_none (lines : List Line) (delta : Int) (hk : Hunk)
    (rest : List Hunk) (o r : List Line)
    (hs : hk.originalStart = none)
    (hdec : decode_hunk_lines hk.lines = .ok (o, r)) :
    applyHunks lines delta (hk :: rest) =
      match find_sequence lines o none with
      | .error e => .error e
      | .ok idx =>
        applyHunks (lines.take idx ++ r ++ lines.drop (idx + o.length)) delta rest := by
  simp only [applyHunks, hdec, hs, Option.map_none', Option.isSome_none, Bool.false_eq_true,
    if_false]

/-! ### C1: hunks are applied in order threading the running line delta -/

/-- C1: the hunks of an Update are applied strictly in order threading a
running line delta that starts at 0 — a hunk with a parsed original-start
`s` is searched with hint `max (s − 1 + delta) 0` and afterwards the delta
grows by `len replacement − len original`; a hunk without a parseable
header is searched with no hint and leaves the delta unchanged; in
particular, when an earlier hunk with a parsed header inserts 3 lines, a
later hunk with parsed original-start `s₂` is searched with effective hint
`s₂ − 1 + 3`, shifted by +3 against its header's literal line number. -/
theorem applyHunks_threads_delta :
    (∀ (lines : List Line) (delta : Int), applyHunks lines delta [] = .ok lines) ∧
    (∀ (lines : List Line) (delta : Int) (hk : Hunk) (rest : List Hunk)
      (s : Nat) (o r : List Line),
      hk.originalStart = some s →
      decode_hunk_lines hk.lines = .ok (o, r) →
      applyHunks lines delta (hk :: rest) =
        match find_sequence lines o (some (max ((s : Int) - 1 + delta) 0)) with
        | .error e => .error e
        | .ok idx =>
          applyHunks (lines.take idx ++ r ++ lines.drop (idx + o.length))
            (delta + (r.length : Int) - (o.length : Int)) rest) ∧
    (∀ (lines : List Line) (delta : Int) (hk : Hunk) (rest : List Hunk)
      (o r : List Line),
      hk.originalStart = none →
      decode_hunk_lines hk.lines = .ok (o, r) →
      applyHunks lines delta (hk :: rest) =
        match find_sequence lines o none with
        | .error e => .error e
        | .ok idx =>
          applyHunks (lines.take idx ++ r ++ lines.drop (idx + o.length)) delta rest) ∧
    (∀ (lines : List Line) (hk1 hk2 : Hunk) (s1 s2 : Nat) (o1 r1 o2 r2 : List Line),
      hk1.originalStart = some s1 →
      hk2.originalStart = some s2 →
      decode_hunk_lines hk1.lines = .ok (o1, r1) →
      decode_hunk_lines hk2.lines = .ok (o2, r2) →
      r1.length = o1.length + 3 →
      applyHunks lines 0 [hk1, hk2] =
        match find_sequence lines o1 (some (max ((s1 : Int) - 1) 0)) with
        | .error e => .error e
        | .ok i1 =>
          match find_sequence (lines.take i1 ++ r1 ++ lines.drop (i1 + o1.length)) o2
              (some ((s2 : Int) - 1 + 3)) with
          | .error e => .error e
          | .ok i2 =>
            .ok ((lines.take i1 ++ r1 ++ lines.drop (i1 + o1.length)).take i2 ++ r2 ++
              (lines.take i1 ++ r1 ++ lines.drop (i1 + o1.length)).drop (i2 + o2.length))) := by
  refine ⟨applyHunks_nil, applyHunks_cons_some, applyHunks_cons_none, ?_⟩
  intro lines hk1 hk2 s1 s2 o1 r1 o2 r2 hs1 hs2 hdec1 hdec2 hr
  rw [applyHunks_cons_some lines 0 hk1 [hk2] s1 o1 r1 hs1 hdec1]
  have e0 : (s1 : Int) - 1 + 0 = (s1 : Int) - 1 := by ring
  rw [e0]
  cases hf1 : find_sequence lines o1 (some (max ((s1 : Int) - 1) 0)) with
  | error e => rfl
  | ok i1 =>
    dsimp only
    rw [applyHunks_cons_some _ _ hk2 [] s2 o2 r2 hs2 hdec2]
    have e1 : (0 : Int) + (r1.length : Int) - (o1.length : Int) = 3 := by
      rw [hr]; push_cast; ring
    rw [e1]
    have e2 : max ((s2 : Int) - 1 + 3) 0 = (s2 : Int) - 1 + 3 := by omega
    rw [e2]
    cases hf2 : find_sequence (lines.take i1 ++ r1 ++ lines.drop (i1 + o1.length)) o2
        (some ((s2 : Int) - 1 + 3)) with
    | error e => rfl
    | ok i2 => dsimp only; rw [applyHunks_nil]

/-- Witness for C1 at a concrete input: the first hunk (header `@@ -1 +1 @@`)
inserts three lines, and the second hunk (header `@@ -3 +6 @@`) is then
searched with effective hint `3 − 1 + 3`. -/
theorem applyHunks_threads_delta_witness :
    (Hunk.mk "@@ -1 +1 @@".data [" a".data, "+i1".data, "+i2".data, "+i3".data]).originalStart
        = some 1 ∧
    (Hunk.mk "@@ -3 +6 @@".data ["-c".data, "+C".data]).originalStart = some 3 ∧
    decode_hunk_lines [" a".data, "+i1".data, "+i2".data, "+i3".data] =
      .ok (["a".data], ["a".data, "i1".data, "i2".data, "i3".data]) ∧
    decode_hunk_lines ["-c".data, "+C".data] = .ok (["c".data], ["C".data]) ∧
    ([("a".data : Line), "i1".data, "i2".data, "i3".data]).length =
      ([("a".data : Line)]).length + 3 ∧
    applyHunks ["a".data, "b".data, "c".data, "d".data] 0
        [Hunk.mk "@@ -1 +1 @@".data [" a".data, "+i1".data, "+i2".data, "+i3".data],
         Hunk.mk "@@ -3 +6 @@".data ["-c".data, "+C".data]] =
      match find_sequence ["a".data, "b".data, "c".data, "d".data] ["a".data]
          (some (max ((1 : Int) - 1) 0)) with
      | .error e => .error e
      | .ok i1 =>
        match find_sequence
            ((["a".data, "b".data, "c".data, "d".data] : List Line).take i1 ++
              ["a".data, "i1".data, "i2".data, "i3".data] ++
              (["a".data, "b".data, "c".data, "d".data] : List Line).drop (i1 + 1)) ["c".data]
            (some ((3 : Int) - 1 + 3)) with
        | .error e => .error e
        | .ok i2 =>
          .ok (((["a".data, "b".data, "c".data, "d".data] : List Line).take i1 ++
              ["a".data, "i1".data, "i2".data, "i3".data] ++
              (["a".data, "b".data, "c".data, "d".data] : List Line).drop (i1 + 1)).take i2 ++
            ["C".data] ++
            ((["a".data, "b".data, "c".data, "d".data] : List Line).take i1 ++
              ["a".data, "i1".data, "i2".data, "i3".data] ++
              (["a".data, "b".data, "c".data, "d".data] : List Line).drop (i1 + 1)).drop
              (i2 + 1)) := by
  refine ⟨by decide, by decide, by decide, by decide, by decide, ?_⟩
  exact applyHunks_threads_delta.2.2.2 ["a".data, "b".data, "c".data, "d".data]
    (Hunk.mk "@@ -1 +1 @@".data [" a".data, "+i1".data, "+i2".data, "+i3".data])
    (Hunk.mk "@@ -3 +6 @@".data ["-c".data, "+C".data]) 1 3
    ["a".data] ["a".data, "i1".data, "i2".data, "i3".data] ["c".data] ["C".data]
    (by decide) (by decide) (by decide) (by decide) (by decide)

/-! ### C3: the rejoined text written back after an Update -/

/-- C3: once the hunks of an Update have been applied, the resulting text is
the edited line list joined with `'\n'`, with a trailing `'\n'` appended
exactly when the original text ended with a newline or the resulting line
list is empty (an empty result still receives the trailing newline). -/
theorem apply_update_text_rejoin (text : List Char) (hunks : List Hunk)
    (newLines : List Line)
    (happ : applyHunks (splitlines text) 0 hunks = .ok newLines) :
    apply_update_text text hunks =
      .ok (joinNl newLines ++
        (if text.getLast? = some '\n' ∨ newLines = [] then ['\n'] else [])) := by
  unfold apply_update_text
  rw [happ]
  dsimp only
  by_cases ht : text.getLast? = some '\n' ∨ newLines = []
  · rw [if_pos ht]
    have : (decide (text.getLast? = some '\n') || newLines.isEmpty) = true := by
      rcases ht with ht | ht <;> simp [ht]
    rw [this]
    simp
  · rw [if_neg ht]
    push_neg at ht
    have : (decide (text.getLast? = some '\n') || newLines.isEmpty) = false := by
      simp [ht.1, ht.2]
    rw [this]
    simp

/-- Witness for C3 at a concrete input (the `x/y/z` context-hunk scenario). -/
theorem apply_update_text_rejoin_witness :
    applyHunks (splitlines "x\ny\nz\n".data) 0
        [Hunk.mk "@@ -1,3 +1,3 @@".data [" x".data, "-y".data, "+Y".data, " z".data]] =
      .ok ["x".data, "Y".data, "z".data] ∧
    apply_update_text "x\ny\nz\n".data
        [Hunk.mk "@@ -1,3 +1,3 @@".data [" x".data, "-y".data, "+Y".data, " z".data]] =
      .ok (joinNl ["x".data, "Y".data, "z".data] ++
        (if ("x\ny\nz\n".data.getLast? = some '\n' ∨
            ([("x".data : Line), "Y".data, "z".data]) = []) then ['\n'] else [])) := by
  refine ⟨by decide, ?_⟩
  exact apply_update_text_rejoin "x\ny\nz\n".data
    [Hunk.mk "@@ -1,3 +1,3 @@".data [" x".data, "-y".data, "+Y".data, " z".data]]
    ["x".data, "Y".data, "z".data] (by decide)

/-! ### Splicing and rejoining lemmas (shared helpers, used for C5) -/

/-- Splicing a block back over the place where it already occurs is the
identity on the line list. -/
theorem splice_eq_self {lines o : List Line} {i : Nat}
    (hsl : (lines.drop i).take o.length = o) :
    lines.take i ++ o ++ lines.drop (i + o.length) = lines := by
  conv_rhs => rw [← List.take_append_drop i lines]
  rw [List.append_assoc]
  congr 1
  conv_rhs => rw [← List.take_append_drop o.length (lines.drop i), hsl, List.drop_drop]

/-- A single hunk whose decoded original equals its decoded replacement
leaves the line list unchanged whenever it applies successfully. -/
theorem applyHunks_single_identity {lines res : List Line} {delta : Int} {hk : Hunk}
    {o : List Line}
    (hdec : decode_hunk_lines hk.lines = .ok (o, o))
    (h : applyHunks lines delta [hk] = .ok res) : res = lines := by
  simp only [applyHunks, hdec] at h
  cases hf : find_sequence lines o
      (hk.originalStart.map fun s : Nat => max ((s : Int) - 1 + delta) 0) with
  | error e => rw [hf] at h; cases h
  | ok idx =>
    rw [hf] at h
    dsimp only at h
    obtain ⟨-, hsl⟩ := find_sequence_ok hf
    rw [splice_eq_self hsl] at h
    cases h
    rfl

/-- `joinNl` of a singleton. -/
theorem joinNl_singleton (l : Line) : joinNl [l] = l := by
  simp [joinNl, List.intercalate]

/-- `joinNl` of a cons with a non-empty tail inserts one separator. -/
theorem joinNl_cons {ls : List Line} (l : Line) (h : ls ≠ []) :
    joinNl (l :: ls) = l ++ '\n' :: joinNl ls := by
  rcases ls with _ | ⟨m, ms⟩
  · cases h rfl
  · simp [joinNl, List.intercalate, List.intersperse_cons_cons]

/-- The splitter worker never produces an empty list of lines. -/
theorem splitlinesAux_ne_nil (cs acc : List Char) : splitlinesAux cs acc ≠ [] := by
  induction cs generalizing acc with
  | nil => simp [splitlinesAux]
  | cons c rest ih =>
    rw [splitlinesAux.eq_def]
    dsimp only
    split
    · split <;> simp
    · split
      · simp
      · apply ih

/-- Rejoining the split of a text whose only line-break characters are plain
`'\n'` restores the text, up to the trailing newline that splitting forgot. -/
theorem joinNl_splitlinesAux (cs : List Char) :
    ∀ acc, (∀ c ∈ cs, isLineBreak c → c = '\n') →
      joinNl (splitlinesAux cs acc) ++
        (if cs.getLast? = some '\n' then ['\n'] else []) = acc.reverse ++ cs := by
  induction cs with
  | nil =>
    intro acc _
    simp [splitlinesAux, joinNl_singleton]
  | cons c rest ih =>
    intro acc hnl
    rw [splitlinesAux.eq_def]
    dsimp only
    by_cases hbr : isLineBreak c
    · have hc : c = '\n' := hnl c (List.mem_cons_self _ _) hbr
      subst hc
      rw [if_neg (by decide : ¬ ('\n' : Char) = '\r'),
        if_pos (by decide : isLineBreak '\n' = true)]
      rcases rest with _ | ⟨d, ds⟩
      · simp [joinNl_singleton]
      · rw [show (d :: ds).isEmpty = false from rfl]
        simp only [Bool.false_eq_true, if_false]
        rw [joinNl_cons _ (splitlinesAux_ne_nil _ _), List.getLast?_cons_cons]
        have ih' := ih [] (fun x hx hbx => hnl x (List.mem_cons_of_mem _ hx) hbx)
        simp only [List.reverse_nil, List.nil_append] at ih'
        rw [List.append_assoc, List.cons_append, ih']
    · have hcr : c ≠ '\r' := by
        intro hh
        subst hh
        simp [isLineBreak] at hbr
      rw [if_neg hcr, if_neg hbr]
      have hc : c ≠ '\n' := by
        intro hc
        subst hc
        simp [isLineBreak] at hbr
      have ih' := ih (c :: acc) (fun x hx hbx => hnl x (List.mem_cons_of_mem _ hx) hbx)
      rcases rest with _ | ⟨d, ds⟩
      · rw [show ([c] : List Char).getLast? = some c from rfl,
          if_neg (by simpa using hc)]
        simp only [List.getLast?_nil,
          if_neg (by simp : ¬ (none : Option Char) = some '\n')] at ih'
        simpa using ih'
      · rw [List.getLast?_cons_cons]
        simpa using ih'

/-- Rejoining `splitlines` of a non-empty text with only plain-`'\n'` line
breaks, restoring the trailing newline when the text had one, is the
identity. -/
theorem rejoin_splitlines (text : List Char) (hne : text ≠ [])
    (hnl : ∀ c ∈ text, isLineBreak c → c = '\n') :
    joinNl (splitlines text) ++
      (if text.getLast? = some '\n' then ['\n'] else []) = text := by
  unfold splitlines
  rw [if_neg (by simpa using hne)]
  simpa using joinNl_splitlinesAux text [] hnl

/-- `splitlines` of a non-empty text is non-empty. -/
theorem splitlines_ne_nil {text : List Char} (hne : text ≠ []) :
    splitlines text ≠ [] := by
  unfold splitlines
  rw [if_neg (by simpa using hne)]
  exact splitlinesAux_ne_nil _ _

/-! ### Suffix stability of the parser (shared helpers, used for C10) -/

/-- If the Add payload loop stops at a directive row, appending extra rows
after the input leaves the payload unchanged and extends the leftover. -/
theorem parseAddPayload_append {l : List Line} {p : List Line} {hd : Line}
    {tl : List Line} (suf : List Line)
    (h : parseAddPayload l = .ok (p, hd :: tl)) :
    parseAddPayload (l ++ suf) = .ok (p, hd :: (tl ++ suf)) := by
  induction l generalizing p with
  | nil => simp only [parseAddPayload, Except.ok.injEq, Prod.mk.injEq] at h; cases h.2
  | cons row rest ih =>
    simp only [parseAddPayload, List.cons_append, List.append_eq] at h ⊢
    split at h
    · rename_i hst
      simp only [Except.ok.injEq, Prod.mk.injEq] at h
      obtain ⟨rfl, h2⟩ := h
      cases h2
      simp [hst]
    · rename_i hst
      split at h
      · rename_i hpl
        cases hq : parseAddPayload rest with
        | ok q =>
          obtain ⟨q1, q2⟩ := q
          rw [hq] at h
          simp only [Except.ok.injEq, Prod.mk.injEq] at h
          obtain ⟨rfl, h2⟩ := h
          subst h2
          rw [if_neg (by simpa using hst), if_pos hpl, ih hq]
        | error e => rw [hq] at h; cases h
      · cases h

/-- If the Update body loop stops at a directive row, appending extra rows
after the input leaves the final loop state unchanged and extends the
leftover. -/
theorem parseUpdateBody_append {l : List Line} {hq : Option Line} {cur : List Line}
    {b : Bool} {hs r1 : List Hunk} {r2 : Option Line} {r3 : List Line} {r4 : Bool}
    {hd : Line} {tl : List Line} (suf : List Line)
    (h : parseUpdateBody l hq cur b hs = ⟨r1, r2, r3, r4, hd :: tl⟩) :
    parseUpdateBody (l ++ suf) hq cur b hs = ⟨r1, r2, r3, r4, hd :: (tl ++ suf)⟩ := by
  induction l generalizing hq cur b hs with
  | nil => simp only [parseUpdateBody, UpdateBodyState.mk.injEq] at h; cases h.2.2.2.2
  | cons row rest ih =>
    simp only [parseUpdateBody, List.cons_append, List.append_eq] at h ⊢
    split at h
    · rename_i hst
      simp only [UpdateBodyState.mk.injEq] at h
      obtain ⟨rfl, rfl, rfl, rfl, h5⟩ := h
      cases h5
      simp [hst]
    · rename_i hst
      rw [if_neg (by simpa using hst)]
      split at h <;> rename_i hrow
      · rw [if_pos hrow]
        exact ih h
      · rw [if_neg hrow]
        split at h <;> rename_i harr
        · rw [if_pos harr]
          split at h <;> exact ih h
        · rw [if_neg harr]
          split at h <;> exact ih h

/-- `moveSplit` on a non-empty row list is unaffected by rows appended after
it, up to extending the remaining rows. -/
theorem moveSplit_append {mv : Line} {rest : List Line} (suf : List Line) :
    moveSplit ((mv :: rest) ++ suf) =
      ((moveSplit (mv :: rest)).1, (moveSplit (mv :: rest)).2 ++ suf) := by
  simp only [moveSplit, List.cons_append]
  split <;> simp

/-! ### Step equations of the top-level directive loop (shared helpers) -/

/-- Running out of rows at top level is the missing-end-marker error. -/
theorem parseOps_nil_eq (ops : List Operation) :
    parseOps [] ops = .error .endMissing := by
  rw [parseOps.eq_def]

/-- A blank row at top level is skipped. -/
theorem parseOps_blank {line : Line} (rest : List Line) (ops : List Operation)
    (h : (pyStrip line).isEmpty = true) :
    parseOps (line :: rest) ops = parseOps rest ops := by
  rw [parseOps.eq_def]
  simp [h]

/-- A row whose trimmed content is the End marker returns the accumulated
operations, ignoring every row after it. -/
theorem parseOps_end {line : Line} (rest : List Line) (ops : List Operation)
    (h : pyStrip line = END) :
    parseOps (line :: rest) ops = .ok ops.reverse := by
  rw [parseOps.eq_def]
  simp [h, END]

/-- Step equation of the Add-File branch. -/
theorem parseOps_add {line : Line} (rest : List Line) (ops : List Operation)
    (h1 : (pyStrip line).isEmpty = false)
    (h2 : pyStrip line ≠ END)
    (h3 : startswith ADD line = true) :
    parseOps (line :: rest) ops =
      match parseAddPayload rest with
      | .error e => .error e
      | .ok p =>
        if (pyStrip (line.drop ADD.length)).isEmpty then .error .missingAddPath
        else parseOps p.2 (.add (pyStrip (line.drop ADD.length)) p.1 :: ops) := by
  rw [parseOps.eq_def]
  simp only [h1, h2, h3, Bool.false_eq_true, if_false, if_true, reduceIte]
  cases hq : parseAddPayload rest with
  | error e => simp
  | ok p => simp

/-- Step equation of the Delete-File branch. -/
theorem parseOps_delete {line : Line} (rest : List Line) (ops : List Operation)
    (h1 : (pyStrip line).isEmpty = false)
    (h2 : pyStrip line ≠ END)
    (h3 : startswith ADD line = false)
    (h4 : startswith DELETE line = true) :
    parseOps (line :: rest) ops =
      if (pyStrip (line.drop DELETE.length)).isEmpty then .error .missingDeletePath
      else parseOps rest (.delete (pyStrip (line.drop DELETE.length)) :: ops) := by
  rw [parseOps.eq_def]
  simp [h1, h2, h3, h4]

/-- Step equation of the Update-File branch. -/
theorem parseOps_update {line : Line} (rest : List Line) (ops : List Operation)
    (h1 : (pyStrip line).isEmpty = false)
    (h2 : pyStrip line ≠ END)
    (h3 : startswith ADD line = false)
    (h4 : startswith DELETE line = false)
    (h5 : startswith UPDATE line = true) :
    parseOps (line :: rest) ops =
      if (pyStrip (line.drop UPDATE.length)).isEmpty then .error .missingUpdatePath
      else
        match finishHunks (parseUpdateBody (moveSplit rest).2 none [] false [])
            (pyStrip (line.drop UPDATE.length)) with
        | .error e => .error e
        | .ok hunks =>
          parseOps (parseUpdateBody (moveSplit rest).2 none [] false []).leftover
            (.update (pyStrip (line.drop UPDATE.length)) (moveSplit rest).1 hunks :: ops) := by
  rw [parseOps.eq_def]
  simp [h1, h2, h3, h4, h5]

/-- A non-blank top-level row that is neither the End marker nor a
recognized directive fails with the unsupported-directive error. -/
theorem parseOps_unsupported {line : Line} (rest : List Line) (ops : List Operation)
    (h1 : (pyStrip line).isEmpty = false)
    (h2 : pyStrip line ≠ END)
    (h3 : startswith ADD line = false)
    (h4 : startswith DELETE line = false)
    (h5 : startswith UPDATE line = false) :
    parseOps (line :: rest) ops = .error (.unsupportedDirective line) := by
  rw [parseOps.eq_def]
  simp [h1, h2, h3, h4, h5]

/-! ### C7: Begin marker, unsupported directives, missing End marker -/

/-- C7: the parser skips leading blank lines and fails with the
begin-missing error unless the next line, trimmed, equals `*** Begin Patch`;
a non-blank top-level line that is not the End marker and matches no
recognized directive fails with the unsupported-directive error; and
running out of lines at top level fails with the missing-end-marker
error. -/
theorem parse_patch_marker_errors :
    (∀ text : List Char,
      (normalize_lines text).dropWhile (fun l => (pyStrip l).isEmpty) = [] →
      parse_patch text = .error .beginMissing) ∧
    (∀ (text : List Char) (first : Line) (rest : List Line),
      (normalize_lines text).dropWhile (fun l => (pyStrip l).isEmpty) = first :: rest →
      pyStrip first ≠ BEGIN →
      parse_patch text = .error .beginMissing) ∧
    (∀ (line : Line) (rest : List Line) (ops : List Operation),
      (pyStrip line).isEmpty = false →
      pyStrip line ≠ END →
      startswith ADD line = false →
      startswith DELETE line = false →
      startswith UPDATE line = false →
      parseOps (line :: rest) ops = .error (.unsupportedDirective line)) ∧
    (∀ ops : List Operation, parseOps [] ops = .error .endMissing) := by
  refine ⟨?_, ?_, ?_, ?_⟩
  · intro text hdrop
    unfold parse_patch parseBeginLines
    rw [hdrop]
  · intro text first rest hdrop hne
    unfold parse_patch parseBeginLines
    rw [hdrop]
    simp [hne]
  · intro line rest ops hblank hend hadd hdel hupd
    rw [parseOps.eq_def]
    simp [hblank, hend, hadd, hdel, hupd]
  · intro ops
    rw [parseOps.eq_def]

/-- Witness for C7 at a concrete input: an unrecognized top-level directive
line. -/
theorem parse_patch_marker_errors_witness :
    (pyStrip "what is this".data).isEmpty = false ∧
    pyStrip "what is this".data ≠ END ∧
    startswith ADD "what is this".data = false ∧
    startswith DELETE "what is this".data = false ∧
    startswith UPDATE "what is this".data = false ∧
    parseOps ["what is this".data] [] =
      .error (.unsupportedDirective "what is this".data) := by
  refine ⟨by decide, by decide, by decide, by decide, by decide, ?_⟩
  exact parse_patch_marker_errors.2.2.1 "what is this".data [] []
    (by decide) (by decide) (by decide) (by decide) (by decide)

/-! ### C5: identity hunks and the round-trip property -/

/-- Counterexample to C5 as stated: on the empty target text, the Update
whose single hunk has header `@@` and no body lines decodes to an original
block equal to its replacement block (both empty), the matcher succeeds, yet
the resulting text is a single newline, not the original empty text — the
trailing-newline state is not preserved. -/
theorem empty_file_identity_hunk_not_roundtrip :
    decode_hunk_lines (Hunk.mk ATAT ([] : List Line)).lines = .ok ([], []) ∧
    find_sequence (splitlines ([] : List Char)) []
      ((Hunk.mk ATAT ([] : List Line)).originalStart.map
        (fun s : Nat => max ((s : Int) - 1 + 0) 0)) = .ok 0 ∧
    apply_update_text ([] : List Char) [Hunk.mk ATAT ([] : List Line)] = .ok ['\n'] ∧
    (['\n'] : List Char) ≠ ([] : List Char) := by
  refine ⟨rfl, rfl, rfl, by decide⟩

/-- C5 (amended): for every non-empty target text whose line-break
characters are all plain `'\n'`, applying an Update whose single hunk's
decoded original block equals its decoded replacement block returns the text
byte-identical (including its trailing-newline state) whenever it succeeds. -/
theorem identity_hunk_roundtrip (text : List Char) (hk : Hunk) (o : List Line)
    (out : List Char)
    (hne : text ≠ [])
    (hnl : ∀ c ∈ text, isLineBreak c → c = '\n')
    (hdec : decode_hunk_lines hk.lines = .ok (o, o))
    (happ : apply_update_text text [hk] = .ok out) :
    out = text := by
  unfold apply_update_text at happ
  cases ha : applyHunks (splitlines text) 0 [hk] with
  | error e => rw [ha] at happ; cases happ
  | ok newLines =>
    rw [ha] at happ
    dsimp only at happ
    have hnew : newLines = splitlines text := applyHunks_single_identity hdec ha
    subst hnew
    have hemp : (splitlines text).isEmpty = false := by
      simpa using splitlines_ne_nil hne
    rw [hemp, Bool.or_false] at happ
    have hrej := rejoin_splitlines text hne hnl
    by_cases hlast : text.getLast? = some '\n'
    · rw [if_pos hlast] at hrej
      rw [decide_eq_true hlast, if_pos rfl] at happ
      cases happ
      exact hrej
    · rw [if_neg hlast] at hrej
      rw [decide_eq_false hlast] at happ
      simp only [Bool.false_eq_true, if_false] at happ
      cases happ
      simpa using hrej

/-! ### Suffix stability of the directive loop (shared helper, used for C10) -/

/-- If the directive loop succeeds on a row list, it returns the same
operations on that list extended by any rows after it: the run returned at
an End-marker row inside the original list and never read past it. -/
theorem parseOps_append_of_ok (n : Nat) :
    ∀ (lines suf : List Line) (ops res : List Operation),
      lines.length ≤ n → parseOps lines ops = .ok res →
      parseOps (lines ++ suf) ops = .ok res := by
  induction n with
  | zero =>
    intro lines suf ops res hlen h
    have : lines = [] := by cases lines <;> simp_all
    subst this
    rw [parseOps_nil_eq] at h
    cases h
  | succ n ih =>
    intro lines suf ops res hlen h
    cases lines with
    | nil => rw [parseOps_nil_eq] at h; cases h
    | cons line rest =>
      have hrest : rest.length ≤ n := by
        simp only [List.length_cons] at hlen
        omega
      by_cases hb : (pyStrip line).isEmpty
      · rw [parseOps_blank _ _ hb] at h
        rw [List.cons_append, parseOps_blank _ _ hb]
        exact ih rest suf ops res hrest h
      · have hb' : (pyStrip line).isEmpty = false := by simpa using hb
        by_cases he : pyStrip line = END
        · rw [parseOps_end _ _ he] at h
          rw [List.cons_append, parseOps_end _ _ he]
          exact h
        · by_cases ha : startswith ADD line
          · rw [parseOps_add _ _ hb' he ha] at h
            rw [List.cons_append, parseOps_add _ _ hb' he ha]
            cases hq : parseAddPayload rest with
            | error e => rw [hq] at h; cases h
            | ok p =>
              obtain ⟨p1, p2⟩ := p
              rw [hq] at h
              dsimp only at h
              split at h
              · cases h
              · rename_i hpath
                cases hp2 : p2 with
                | nil => rw [hp2, parseOps_nil_eq] at h; cases h
                | cons hd tl =>
                  subst hp2
                  have hap := parseAddPayload_append suf hq
                  rw [hap]
                  dsimp only
                  rw [if_neg hpath, ← List.cons_append]
                  have hlen2 : (hd :: tl).length ≤ n := by
                    have := parseAddPayload_length hq
                    simp only at this
                    omega
                  exact ih (hd :: tl) suf _ res hlen2 h
          · have ha' : startswith ADD line = false := by simpa using ha
            by_cases hdel : startswith DELETE line
            · rw [parseOps_delete _ _ hb' he ha' hdel] at h
              rw [List.cons_append, parseOps_delete _ _ hb' he ha' hdel]
              split at h
              · cases h
              · rename_i hpath
                rw [if_neg hpath]
                exact ih rest suf _ res hrest h
            · have hdel' : startswith DELETE line = false := by simpa using hdel
              by_cases hupd : startswith UPDATE line
              · rw [parseOps_update _ _ hb' he ha' hdel' hupd] at h
                rw [List.cons_append, parseOps_update _ _ hb' he ha' hdel' hupd]
                split at h
                · cases h
                · rename_i hpath
                  rw [if_neg hpath]
                  cases rest with
                  | nil =>
                    rw [show finishHunks
                        (parseUpdateBody (moveSplit ([] : List Line)).2 none [] false [])
                        (pyStrip (line.drop UPDATE.length)) =
                      .error (.missingHunkData (pyStrip (line.drop UPDATE.length)))
                      from rfl] at h
                    cases h
                  | cons mv rest' =>
                    rw [moveSplit_append suf]
                    rcases hpb : parseUpdateBody (moveSplit (mv :: rest')).2 none [] false []
                      with ⟨s1, s2, s3, s4, s5⟩
                    rw [hpb] at h
                    dsimp only at h
                    cases hs5 : s5 with
                    | nil =>
                      subst hs5
                      cases hfh : finishHunks ⟨s1, s2, s3, s4, []⟩
                          (pyStrip (line.drop UPDATE.length)) with
                      | error e => rw [hfh] at h; cases h
                      | ok hunks =>
                        rw [hfh] at h
                        dsimp only at h
                        rw [parseOps_nil_eq] at h
                        cases h
                    | cons hd tl =>
                      subst hs5
                      have hub := parseUpdateBody_append suf hpb
                      rw [hub]
                      dsimp only
                      rw [show finishHunks ⟨s1, s2, s3, s4, hd :: (tl ++ suf)⟩
                          (pyStrip (line.drop UPDATE.length)) =
                        finishHunks ⟨s1, s2, s3, s4, hd :: tl⟩
                          (pyStrip (line.drop UPDATE.length)) from rfl]
                      cases hfh : finishHunks ⟨s1, s2, s3, s4, hd :: tl⟩
                          (pyStrip (line.drop UPDATE.length)) with
                      | error e => rw [hfh] at h; cases h
                      | ok hunks =>
                        rw [hfh] at h
                        dsimp only at h ⊢
                        rw [← List.cons_append]
                        have hlen2 : (hd :: tl).length ≤ n := by
                          have hl1 := parseUpdateBody_leftover_length
                            (moveSplit (mv :: rest')).2 none [] false []
                          rw [hpb] at hl1
                          have hl2 := moveSplit_length (mv :: rest')
                          simp only [List.length_cons] at hl1 hl2 hlen ⊢
                          omega
                        exact ih (hd :: tl) suf _ res hlen2 h
              · have hupd' : startswith UPDATE line = false := by simpa using hupd
                rw [parseOps_unsupported _ _ hb' he ha' hdel' hupd'] at h
                cases h

/-- If the Begin-check plus directive loop succeeds on a list of rows, it
returns the same operations when any rows are appended after it. -/
theorem parseBeginLines_append (p suf : List Line) (ops : List Operation)
    (h : parseBeginLines p = .ok ops) : parseBeginLines (p ++ suf) = .ok ops := by
  unfold parseBeginLines at h ⊢
  cases hdw : p.dropWhile (fun l => (pyStrip l).isEmpty) with
  | nil => rw [hdw] at h; cases h
  | cons first rest =>
    rw [hdw] at h
    dsimp only at h
    split at h
    · rename_i hbeg
      rw [List.dropWhile_append, hdw]
      simp only [List.isEmpty_cons, Bool.false_eq_true, if_false, List.cons_append]
      rw [if_pos hbeg]
      exact parseOps_append_of_ok rest.length rest suf [] ops (Nat.le_refl _) h
    · cases h

/-- Witness for C5's amended theorem at a concrete input: a one-context-line
hunk applied to `"x\ny\n"`. -/
theorem identity_hunk_roundtrip_witness :
    ("x\ny\n".data ≠ ([] : List Char)) ∧
    (∀ c ∈ "x\ny\n".data, isLineBreak c → c = '\n') ∧
    decode_hunk_lines [" x".data] = .ok (["x".data], ["x".data]) ∧
    apply_update_text "x\ny\n".data [Hunk.mk "@@ -1 +1 @@".data [" x".data]] =
      .ok "x\ny\n".data ∧
    ("x\ny\n".data : List Char) = "x\ny\n".data := by
  refine ⟨by decide, by decide, rfl, rfl, ?_⟩
  exact identity_hunk_roundtrip "x\ny\n".data
    (Hunk.mk "@@ -1 +1 @@".data [" x".data]) ["x".data] "x\ny\n".data
    (by decide) (by decide) rfl rfl

/-! ### C10: text after the End marker has no effect on the parse -/

/-- C10: two patch texts whose normalized line lists share a common prefix
on which the parse already returns (the prefix contains the run up to and
including the first top-level End-marker line) parse to the same operation
sequence; the text after the End marker, well-formed or not, has no
effect. -/
theorem parse_patch_ignores_text_after_end (t1 t2 : List Char) (p s1 s2 : List Line)
    (ops : List Operation)
    (h1 : normalize_lines t1 = p ++ s1)
    (h2 : normalize_lines t2 = p ++ s2)
    (hp : parseBeginLines p = .ok ops) :
    parse_patch t1 = .ok ops ∧ parse_patch t2 = .ok ops ∧
      parse_patch t1 = parse_patch t2 := by
  have e1 : parse_patch t1 = .ok ops := by
    unfold parse_patch
    rw [h1]
    exact parseBeginLines_append p s1 ops hp
  have e2 : parse_patch t2 = .ok ops := by
    unfold parse_patch
    rw [h2]
    exact parseBeginLines_append p s2 ops hp
  exact ⟨e1, e2, e1.trans e2.symm⟩

/-- Witness for C10 at concrete inputs: the same document followed by two
different garbage tails parses identically. -/
theorem parse_patch_ignores_text_after_end_witness :
    normalize_lines "*** Begin Patch\n*** Delete File: a\n*** End Patch\ngarbage".data =
      ["*** Begin Patch".data, "*** Delete File: a".data, "*** End Patch".data] ++
        ["garbage".data] ∧
    normalize_lines
        "*** Begin Patch\n*** Delete File: a\n*** End Patch\n*** Update File:\n@@".data =
      ["*** Begin Patch".data, "*** Delete File: a".data, "*** End Patch".data] ++
        ["*** Update File:".data, "@@".data] ∧
    parseBeginLines
        ["*** Begin Patch".data, "*** Delete File: a".data, "*** End Patch".data] =
      .ok [.delete "a".data] ∧
    parse_patch "*** Begin Patch\n*** Delete File: a\n*** End Patch\ngarbage".data =
      .ok [.delete "a".data] ∧
    parse_patch
        "*** Begin Patch\n*** Delete File: a\n*** End Patch\n*** Update File:\n@@".data =
      .ok [.delete "a".data] := by
  have hp : parseBeginLines
      ["*** Begin Patch".data, "*** Delete File: a".data, "*** End Patch".data] =
      .ok [.delete "a".data] := by
    unfold parseBeginLines
    rw [show (["*** Begin Patch".data, "*** Delete File: a".data,
        "*** End Patch".data] : List Line).dropWhile (fun l => (pyStrip l).isEmpty) =
      ["*** Begin Patch".data, "*** Delete File: a".data, "*** End Patch".data]
      from by decide]
    dsimp only
    rw [if_pos (by decide : pyStrip "*** Begin Patch".data = BEGIN)]
    rw [parseOps_delete _ _ (by decide) (by decide) (by decide) (by decide)]
    rw [if_neg (by decide :
      ¬ ((pyStrip ("*** Delete File: a".data.drop DELETE.length)).isEmpty = true))]
    rw [parseOps_end _ _ (by decide)]
    rfl
  have hmain := parse_patch_ignores_text_after_end
    "*** Begin Patch\n*** Delete File: a\n*** End Patch\ngarbage".data
    "*** Begin Patch\n*** Delete File: a\n*** End Patch\n*** Update File:\n@@".data
    ["*** Begin Patch".data, "*** Delete File: a".data, "*** End Patch".data]
    ["garbage".data] ["*** Update File:".data, "@@".data] [.delete "a".data]
    (by decide) (by decide) hp
  exact ⟨by decide, by decide, hp, hmain.1, hmain.2.1⟩

/-! ### C8: the `*** End of File` sentinel inside an Update body -/

/-- C8 (checking the claimed behaviour against the code): the sentinel line
`*** End of File` is *not* consumed and discarded inside an Update body — it
starts with `"*** "`, so it terminates the body loop before the dead
sentinel test is reached.  (1) After real hunk rows it escapes to top level
and the whole parse fails with the unsupported-directive error, where the
claim predicts a successful parse.  (2) An Update whose body is only the
sentinel fails with the missing-hunk-data error naming the path — here the
outcome agrees with the claim, but only because the loop stops before
consuming anything, exactly as for (3) an empty body. -/
theorem eof_sentinel_terminates_update_body :
    parse_patch
        "*** Begin Patch\n*** Update File: f\n@@ -1 +1 @@\n-x\n+y\n*** End of File\n*** End Patch\n".data =
      .error (.unsupportedDirective "*** End of File".data) ∧
    parse_patch "*** Begin Patch\n*** Update File: f\n*** End of File\n*** End Patch\n".data =
      .error (.missingHunkData "f".data) ∧
    parse_patch "*** Begin Patch\n*** Update File: f\n*** End Patch\n".data =
      .error (.missingHunkData "f".data) := by
  refine ⟨?_, ?_, ?_⟩
  · unfold parse_patch parseBeginLines
    rw [show (normalize_lines
        "*** Begin Patch\n*** Update File: f\n@@ -1 +1 @@\n-x\n+y\n*** End of File\n*** End Patch\n".data).dropWhile
        (fun l => (pyStrip l).isEmpty) =
      ["*** Begin Patch".data, "*** Update File: f".data, "@@ -1 +1 @@".data,
        "-x".data, "+y".data, "*** End of File".data, "*** End Patch".data]
      from by decide]
    dsimp only
    rw [if_pos (by decide : pyStrip "*** Begin Patch".data = BEGIN)]
    rw [parseOps_update _ _ (by decide) (by decide) (by decide) (by decide) (by decide)]
    rw [if_neg (by decide :
      ¬ ((pyStrip ("*** Update File: f".data.drop UPDATE.length)).isEmpty = true))]
    rw [show finishHunks (parseUpdateBody (moveSplit ["@@ -1 +1 @@".data,
        "-x".data, "+y".data, "*** End of File".data, "*** End Patch".data]).2
          none [] false [])
        (pyStrip ("*** Update File: f".data.drop UPDATE.length)) =
      .ok [Hunk.mk "@@ -1 +1 @@".data ["-x".data, "+y".data]] from by decide]
    rw [show (parseUpdateBody (moveSplit ["@@ -1 +1 @@".data,
        "-x".data, "+y".data, "*** End of File".data, "*** End Patch".data]).2
          none [] false []).leftover =
      ["*** End of File".data, "*** End Patch".data] from by decide]
    dsimp only
    exact parseOps_unsupported _ _ (by decide) (by decide) (by decide) (by decide)
      (by decide)
  · unfold parse_patch parseBeginLines
    rw [show (normalize_lines
        "*** Begin Patch\n*** Update File: f\n*** End of File\n*** End Patch\n".data).dropWhile
        (fun l => (pyStrip l).isEmpty) =
      ["*** Begin Patch".data, "*** Update File: f".data, "*** End of File".data,
        "*** End Patch".data] from by decide]
    dsimp only
    rw [if_pos (by decide : pyStrip "*** Begin Patch".data = BEGIN)]
    rw [parseOps_update _ _ (by decide) (by decide) (by decide) (by decide) (by decide)]
    rw [if_neg (by decide :
      ¬ ((pyStrip ("*** Update File: f".data.drop UPDATE.length)).isEmpty = true))]
    rw [show finishHunks (parseUpdateBody
        (moveSplit ["*** End of File".data, "*** End Patch".data]).2 none [] false [])
        (pyStrip ("*** Update File: f".data.drop UPDATE.length)) =
      .error (.missingHunkData "f".data) from by decide]
  · unfold parse_patch parseBeginLines
    rw [show (normalize_lines
        "*** Begin Patch\n*** Update File: f\n*** End Patch\n".data).dropWhile
        (fun l => (pyStrip l).isEmpty) =
      ["*** Begin Patch".data, "*** Update File: f".data, "*** End Patch".data]
      from by decide]
    dsimp only
    rw [if_pos (by decide : pyStrip "*** Begin Patch".data = BEGIN)]
    rw [parseOps_update _ _ (by decide) (by decide) (by decide) (by decide) (by decide)]
    rw [if_neg (by decide :
      ¬ ((pyStrip ("*** Update File: f".data.drop UPDATE.length)).isEmpty = true))]
    rw [show finishHunks (parseUpdateBody
        (moveSplit ["*** End Patch".data]).2 none [] false [])
        (pyStrip ("*** Update File: f".data.drop UPDATE.length)) =
      .error (.missingHunkData "f".data) from by decide]

end ApplyPatch
